import Mathlib

/-!
Verification of the OTA update service: a shallow embedding of
`version_manager.py` (class `VersionManager`) and
`ota_service/ota_updater.py` (class `OTAUpdater`) from the
"OTA Updater + 1.0.0 Weather App" tree, together with proofs of the
behavioural properties stated in the specification.

Modelling conventions:
* a directory on disk is an association list from file name to file
  content (`Dir`); `shutil.copy2` into a directory is `awrite`,
  `shutil.rmtree` is `aerase`;
* the `versions/` tree is an association list from version identifier
  to its `Dir`;
* the managed application process is a pair of booleans: whether the
  supervisor holds an in-memory `Popen` handle (`self.app_process is not
  None`) and whether a managed process is actually executing;
* `verify_update`'s polling loop is driven by a list of observations,
  one per poll iteration: whether `poll()` reports the process exited,
  and the content of `application/app.log` (none = file absent);
* fallible I/O that the Python code checks (saving `versions.json`,
  `subprocess.Popen`, download) is driven by explicit boolean/option
  parameters; I/O the code does not check is assumed to succeed.
-/

/-- File name / content association list modelling one directory. -/
abbrev Dir := List (String × String)

/-- First-match association lookup (reading a file / a directory). -/
def alookup {α : Type} : List (String × α) → String → Option α
  | [], _ => none
  | e :: t, k => if e.1 = k then some e.2 else alookup t k

/-- Remove every entry with key `k` (deleting a file / `shutil.rmtree`). -/
def aerase {α : Type} (l : List (String × α)) (k : String) : List (String × α) :=
  l.filter (fun e => e.1 != k)

/-- Overwrite the entry for `k` with value `v` (`shutil.copy2` target). -/
def awrite {α : Type} (l : List (String × α)) (k : String) (v : α) : List (String × α) :=
  (k, v) :: aerase l k

/-- `leadsWith p s` is true when `p` is an initial segment of `s`. -/
def leadsWith : List Char → List Char → Bool
  | [], _ => true
  | _ :: _, [] => false
  | a :: p, b :: s => a == b && leadsWith p s

/-- `hasSuffix s pat`: Python `s.endswith(pat)`, also how the glob
patterns `*.py` / `*.txt` select files. -/
def hasSuffix (s pat : String) : Bool :=
  leadsWith pat.data.reverse s.data.reverse

/-- Copy every file of `src` whose name satisfies `p` into `dst`,
overwriting (the `glob` + `shutil.copy2` loops of the source). -/
def copyFiles (src dst : Dir) (p : String → Bool) : Dir :=
  src.foldl (fun d e => if p e.1 then awrite d e.1 e.2 else d) dst

/-- Content of the last entry of `src` named `m` that satisfies `p`
(the content a `copyFiles src _ p` run leaves for file `m`). -/
def mlast (src : Dir) (p : String → Bool) (m : String) : Option String :=
  match src with
  | [] => none
  | e :: t =>
    match mlast t p m with
    | some c => some c
    | none => if e.1 = m ∧ p e.1 then some e.2 else none

/-! ## VersionManager (`version_manager.py`) -/

/-- State of a `VersionManager`: the in-memory `self.versions` list
(oldest first), the retention cap `self.max_versions`, the on-disk
contents of `versions_dir` (version identifier ↦ directory), and the
list persisted in `versions.json`. -/
structure VMState where
  versions : List String
  maxVersions : Nat
  dirs : List (String × Dir)
  persisted : List String
  deriving DecidableEq, Repr

/-- Fresh state: `versions.json` absent, empty history (`__init__`). -/
def vm0 (maxVersions : Nat) : VMState :=
  { versions := [], maxVersions := maxVersions, dirs := [], persisted := [] }

/-- `get_current_version`: `self.versions[-1]` if nonempty else `None`. -/
def get_current_version (s : VMState) : Option String :=
  s.versions.getLast?

/-- `get_previous_version`: `self.versions[-2]` if more than one entry. -/
def get_previous_version (s : VMState) : Option String :=
  if s.versions.length > 1 then s.versions.get? (s.versions.length - 2) else none

/-- `_cleanup_old_version`: remove the version's directory from disk. -/
def cleanup_old_version (dirs : List (String × Dir)) (v : String) :
    List (String × Dir) :=
  aerase dirs v

/-- `set_current_version`: append `version` when absent, evict the
oldest entry (popping index 0 and deleting its directory) when the cap
is exceeded, then attempt to persist; `saveOk` is whether the
`versions.json` write succeeds (`_save_version_history`). -/
def set_current_version (s : VMState) (version : String) (saveOk : Bool) : VMState :=
  let s1 :=
    if version ∈ s.versions then s
    else
      let vs := s.versions ++ [version]
      if vs.length > s.maxVersions then
        match vs with
        | [] => { s with versions := [] }
        | oldest :: rest =>
          { s with versions := rest, dirs := cleanup_old_version s.dirs oldest }
      else
        { s with versions := vs }
  if saveOk then { s1 with persisted := s1.versions } else s1

/-- `backup_current_version`: copy every `*.py` then every `*.txt` file
of the application directory into the current version's directory
(created if absent); fails only when no current version exists. -/
def backup_current_version (s : VMState) (appDir : Dir) : VMState × Bool :=
  match get_current_version s with
  | none => (s, false)
  | some cur =>
    let vdir0 := (alookup s.dirs cur).getD []
    let vdir1 := copyFiles appDir vdir0 (fun f => hasSuffix f ".py")
    let vdir2 := copyFiles appDir vdir1 (fun f => hasSuffix f ".txt")
    ({ s with dirs := awrite s.dirs cur vdir2 }, true)

/-- Run a sequence of `set_current_version` calls (persistence ok). -/
def runCalls (s : VMState) : List String → VMState
  | [] => s
  | v :: rest => runCalls (set_current_version s v true) rest

/-! ## OTAUpdater (`ota_service/ota_updater.py`) -/

/-- The supervisor's view of the managed application process:
`tracked` is `self.app_process is not None`, `running` is whether a
managed application process is actually executing on the host. -/
structure ProcState where
  tracked : Bool
  running : Bool
  deriving DecidableEq, Repr

/-- A GitHub release descriptor (`get_latest_release` result). -/
structure Release where
  tag_name : String
  id : Nat
  deriving DecidableEq, Repr

/-- A GitHub commit descriptor (`get_latest_commit` result). -/
structure Commit where
  sha : String
  deriving DecidableEq, Repr

/-- Payload of the dict returned by `check_for_update`. -/
inductive UpdatePayload where
  | release (id : Nat)
  | commit (sha : String)
  deriving DecidableEq, Repr

/-- The dict `check_for_update` returns on a new version. -/
structure UpdateInfo where
  version : String
  payload : UpdatePayload
  deriving DecidableEq, Repr

/-- State of the `OTAUpdater` object: the version manager, the live
application directory, `self.current_version`, and the process view. -/
structure OTAState where
  vm : VMState
  app_dir : Dir
  current_version : Option String
  proc : ProcState
  deriving DecidableEq, Repr

/-- One `verify_update` poll iteration's observation: whether
`self.app_process.poll()` reports the process terminated, and the
content of `application/app.log` (`none` = file absent). -/
structure Obs where
  exited : Bool
  log : Option String
  deriving DecidableEq, Repr

/-- First `n` characters of a string (Python slicing `sha[:7]`). -/
def strTake (s : String) (n : Nat) : String :=
  ⟨s.data.take n⟩

/-- `check_for_update`: prefer the latest release's `tag_name`, else the
latest commit's 7-character short sha; any strict string inequality
against `self.current_version` counts as newer. -/
def check_for_update (cur : Option String) (rel : Option Release)
    (com : Option Commit) : Option UpdateInfo :=
  match rel with
  | some r =>
    if cur ≠ some r.tag_name then
      some { version := r.tag_name, payload := .release r.id }
    else none
  | none =>
    match com with
    | none => none
    | some c =>
      let v := strTake c.sha 7
      if cur ≠ some v then
        some { version := v, payload := .commit c.sha }
      else none

/-- The remote identifier `check_for_update` compares against, when the
remote source reports anything at all. -/
def remote_ident (rel : Option Release) (com : Option Commit) : Option String :=
  match rel with
  | some r => some r.tag_name
  | none =>
    match com with
    | some c => some (strTake c.sha 7)
    | none => none

/-- The tail of the log that the `"Data stored:"` markers are searched
in: `log_content[-5000:]`. -/
def recentTail (s : String) : String :=
  ⟨s.data.drop (s.data.length - 5000)⟩

/-- `occursIn pat s`: Python `pat in s` substring test. -/
def occursIn (pat s : String) : Bool :=
  go pat.data s.data
where
  go (p : List Char) : List Char → Bool
    | [] => p.isEmpty
    | b :: rest => leadsWith p (b :: rest) || go p rest

/-- The log inspection of `verify_update`: the connection marker
anywhere, and a data-stored marker in the last 5000 characters. -/
def logVerifies (content : String) : Bool :=
  occursIn "Successfully connected to Azure SQL Database" content &&
  (occursIn "Data stored:" (recentTail content) ||
   occursIn "Weather data stored:" (recentTail content))

/-- Whether one poll iteration observes a positive liveness marker. -/
def obsMarker (o : Obs) : Bool :=
  match o.log with
  | some content => logVerifies content
  | none => false

/-- `verify_update`, one constructor per poll iteration of its loop:
the process-exit check (skipped when no handle is tracked) precedes the
log inspection; an exhausted trace is the timeout. -/
def verify_update (tracked : Bool) : List Obs → Bool
  | [] => false
  | o :: rest =>
    if tracked && o.exited then false
    else if obsMarker o then true
    else verify_update tracked rest

/-- `stop_application`: when a handle is tracked, SIGTERM then (after
the grace loop) a kill leave no managed process running and clear the
handle; with no handle (`self.app_process` is `None`) the method body
is skipped entirely. -/
def stop_application (p : ProcState) : ProcState :=
  if p.tracked then { tracked := false, running := false } else p

/-- `start_application`: `ok` is whether `subprocess.Popen` succeeds;
on failure the exception handler leaves every field unchanged. -/
def start_application (s : OTAState) (ok : Bool) : OTAState × Bool :=
  if ok then
    ({ s with proc := { tracked := true, running := true } }, true)
  else (s, false)

/-- `rollback`: stop the process, then restore the previous version's
`*.py` files and identifier; fails (after the stop) when no previous
version exists or its directory cannot be listed. `startOk` is whether
the final `subprocess.Popen` succeeds (its result is ignored). -/
def rollback (s : OTAState) (startOk : Bool) : OTAState × Bool :=
  let s0 := { s with proc := stop_application s.proc }
  match get_previous_version s0.vm with
  | none => (s0, false)
  | some prev =>
    match alookup s0.vm.dirs prev with
    | none => (s0, false)
    | some pdir =>
      let s1 := { s0 with
        app_dir := copyFiles pdir s0.app_dir (fun f => hasSuffix f ".py") }
      let s2 := { s1 with
        vm := set_current_version s1.vm prev true,
        current_version := some prev }
      ((start_application s2 startOk).1, true)

/-- `apply_update` for version `v`: stop, back up the current version
if one exists, copy the staged `*.py`/`*.txt` files over the live
directory, commit the identifier, restart, verify; a missing staging
directory (`os.listdir` raising) or a failed verification triggers a
rollback and a `False` result. -/
def apply_update (s : OTAState) (v : String) (startOk : Bool)
    (trace : List Obs) (rbStartOk : Bool) : OTAState × Bool :=
  let s0 := { s with proc := stop_application s.proc }
  let s1 :=
    if s0.current_version.isSome then
      { s0 with vm := (backup_current_version s0.vm s0.app_dir).1 }
    else s0
  match alookup s1.vm.dirs v with
  | none => ((rollback s1 rbStartOk).1, false)
  | some vdir =>
    let s2 := { s1 with
      app_dir := copyFiles vdir s1.app_dir
        (fun f => hasSuffix f ".py" || hasSuffix f ".txt") }
    let s3 := { s2 with
      vm := set_current_version s2.vm v true,
      current_version := some v }
    let s4 := (start_application s3 startOk).1
    if verify_update s4.proc.tracked trace then (s4, true)
    else ((rollback s4 rbStartOk).1, false)

/-- One iteration of the `run` polling loop: check, and on a new
version download into its staging directory (`downloaded` is the
fetched directory content, `none` = download failure) then apply; every
failure is caught by the handlers inside the called methods, so the
iteration always produces a well-defined next state. -/
def run_cycle (s : OTAState) (rel : Option Release) (com : Option Commit)
    (downloaded : Option Dir) (startOk rbStartOk : Bool)
    (trace : List Obs) : OTAState :=
  match check_for_update s.current_version rel com with
  | none => s
  | some info =>
    match downloaded with
    | none => s
    | some d =>
      let s1 := { s with
        vm := { s.vm with dirs := awrite s.vm.dirs info.version d } }
      (apply_update s1 info.version startOk trace rbStartOk).1

/-! ## Association-list lemmas -/

theorem alookup_cons {α : Type} (e : String × α) (t : List (String × α)) (k : String) :
    alookup (e :: t) k = if e.1 = k then some e.2 else alookup t k := rfl

theorem aerase_cons {α : Type} (e : String × α) (t : List (String × α)) (k : String) :
    aerase (e :: t) k = if e.1 = k then aerase t k else e :: aerase t k := by
  simp only [aerase, List.filter_cons, bne_iff_ne, ne_eq, decide_not]
  by_cases h : e.1 = k <;> simp [h]

theorem alookup_aerase_self {α : Type} (l : List (String × α)) (k : String) :
    alookup (aerase l k) k = none := by
  induction l with
  | nil => rfl
  | cons e t ih =>
    rw [aerase_cons]
    by_cases h : e.1 = k
    · simpa [h] using ih
    · simpa [alookup_cons, h] using ih

theorem alookup_aerase_ne {α : Type} (l : List (String × α)) (k m : String)
    (h : m ≠ k) : alookup (aerase l k) m = alookup l m := by
  induction l with
  | nil => rfl
  | cons e t ih =>
    rw [aerase_cons]
    by_cases hek : e.1 = k
    · have hem : e.1 ≠ m := by rw [hek]; exact fun hh => h hh.symm
      rw [if_pos hek, ih, alookup_cons, if_neg hem]
    · rw [if_neg hek, alookup_cons, alookup_cons, ih]

theorem alookup_awrite_self {α : Type} (l : List (String × α)) (k : String) (v : α) :
    alookup (awrite l k v) k = some v := by
  simp [awrite, alookup_cons]

theorem alookup_awrite_ne {α : Type} (l : List (String × α)) (k m : String) (v : α)
    (h : m ≠ k) : alookup (awrite l k v) m = alookup l m := by
  have : k ≠ m := fun hh => h hh.symm
  simp [awrite, alookup_cons, this, alookup_aerase_ne l k m h]

theorem mlast_cons (e : String × String) (t : Dir) (p : String → Bool) (m : String) :
    mlast (e :: t) p m =
      match mlast t p m with
      | some c => some c
      | none => if e.1 = m ∧ p e.1 then some e.2 else none := rfl

theorem mlast_of_pred_false (src : Dir) (p : String → Bool) (m : String)
    (h : p m = false) : mlast src p m = none := by
  induction src with
  | nil => rfl
  | cons e t ih =>
    rw [mlast_cons, ih]
    by_cases hm : e.1 = m
    · subst hm; simp [h]
    · simp [hm]

theorem mlast_of_not_mem (src : Dir) (p : String → Bool) (m : String)
    (h : m ∉ src.map Prod.fst) : mlast src p m = none := by
  induction src with
  | nil => rfl
  | cons e t ih =>
    simp only [List.map_cons, List.mem_cons, not_or] at h
    rw [mlast_cons, ih h.2]
    have : e.1 ≠ m := fun hh => h.1 hh.symm
    simp [this]

theorem mlast_aerase_self (d : Dir) (p : String → Bool) (m : String) :
    mlast (aerase d m) p m = none := by
  induction d with
  | nil => rfl
  | cons e t ih =>
    rw [aerase_cons]
    by_cases h : e.1 = m
    · rw [if_pos h, ih]
    · rw [if_neg h, mlast_cons, ih]; simp [h]

theorem mlast_aerase_ne (d : Dir) (p : String → Bool) (k m : String) (h : m ≠ k) :
    mlast (aerase d k) p m = mlast d p m := by
  induction d with
  | nil => rfl
  | cons e t ih =>
    rw [aerase_cons]
    by_cases hek : e.1 = k
    · have hem : e.1 ≠ m := by rw [hek]; exact fun hh => h hh.symm
      rw [if_pos hek, ih, mlast_cons]
      cases hml : mlast t p m <;> simp [hem]
    · rw [if_neg hek, mlast_cons, mlast_cons, ih]

theorem mlast_awrite (d : Dir) (k c : String) (p : String → Bool) (m : String) :
    mlast (awrite d k c) p m =
      if m = k then (if p k then some c else none) else mlast d p m := by
  by_cases h : m = k
  · subst h
    rw [awrite, mlast_cons, mlast_aerase_self]
    by_cases hp : p m <;> simp [hp]
  · rw [awrite, mlast_cons, mlast_aerase_ne d p k m ‹m ≠ k›]
    have : ¬(k = m) := fun hh => h hh.symm
    cases hml : mlast d p m <;> simp [this, h]

theorem copyFiles_nil (dst : Dir) (p : String → Bool) :
    copyFiles [] dst p = dst := rfl

theorem copyFiles_cons (e : String × String) (t : Dir) (dst : Dir) (p : String → Bool) :
    copyFiles (e :: t) dst p =
      copyFiles t (if p e.1 then awrite dst e.1 e.2 else dst) p := rfl

theorem copyFiles_alookup (src : Dir) (p : String → Bool) (m : String) :
    ∀ dst : Dir, alookup (copyFiles src dst p) m =
      match mlast src p m with
      | some c => some c
      | none => alookup dst m := by
  induction src with
  | nil => intro dst; rfl
  | cons e t ih =>
    intro dst
    rw [copyFiles_cons, ih, mlast_cons]
    cases hml : mlast t p m with
    | some c => rfl
    | none =>
      by_cases hp : p e.1
      · by_cases hem : e.1 = m
        · subst hem; simp [hp, alookup_awrite_self]
        · have : m ≠ e.1 := fun hh => hem hh.symm
          simp [hp, hem, alookup_awrite_ne dst e.1 m e.2 this]
      · simp [hp]

theorem copyFiles_mlast (src : Dir) (q p : String → Bool) (m : String) :
    ∀ dst : Dir, mlast (copyFiles src dst q) p m =
      match mlast src q m with
      | some c => if p m then some c else none
      | none => mlast dst p m := by
  induction src with
  | nil => intro dst; rfl
  | cons e t ih =>
    intro dst
    rw [copyFiles_cons, ih, mlast_cons]
    cases hml : mlast t q m with
    | some c => rfl
    | none =>
      by_cases hq : q e.1
      · by_cases hem : e.1 = m
        · subst hem
          simp [hq, mlast_awrite]
        · have hne : m ≠ e.1 := fun hh => hem hh.symm
          rw [if_pos hq, mlast_awrite, if_neg hne]
          simp [hem, hq]
      · simp [hq]

theorem alookup_mlast_of_nodup (src : Dir) (p : String → Bool) (m c : String)
    (hnd : (src.map Prod.fst).Nodup) (hp : p m = true)
    (hl : alookup src m = some c) : mlast src p m = some c := by
  induction src with
  | nil => simp [alookup] at hl
  | cons e t ih =>
    simp only [List.map_cons, List.nodup_cons] at hnd
    rw [alookup_cons] at hl
    rw [mlast_cons]
    by_cases hem : e.1 = m
    · rw [if_pos hem] at hl
      have hnm : m ∉ t.map Prod.fst := hem ▸ hnd.1
      rw [mlast_of_not_mem t p m hnm]
      have : p e.1 = true := hem ▸ hp
      simp [hem, this, hp, Option.some_inj.mp hl]
    · rw [if_neg hem] at hl
      rw [ih hnd.2 hl]

/-! ## `set_current_version` scenario lemmas -/

theorem set_current_maxVersions (s : VMState) (v : String) (so : Bool) :
    (set_current_version s v so).maxVersions = s.maxVersions := by
  unfold set_current_version
  dsimp only
  repeat' split
  all_goals rfl

theorem set_current_of_mem (s : VMState) (v : String) (so : Bool)
    (h : v ∈ s.versions) :
    (set_current_version s v so).versions = s.versions ∧
    (set_current_version s v so).dirs = s.dirs := by
  unfold set_current_version
  cases so <;> simp [h]

theorem set_current_no_evict (s : VMState) (v : String) (so : Bool)
    (h : v ∉ s.versions) (hcap : s.versions.length < s.maxVersions) :
    (set_current_version s v so).versions = s.versions ++ [v] ∧
    (set_current_version s v so).dirs = s.dirs := by
  unfold set_current_version
  have hlen : ¬(s.maxVersions < s.versions.length + 1) := by omega
  cases so <;> simp [h, hlen]

theorem set_current_evict (s : VMState) (v a : String) (t : List String) (so : Bool)
    (h : v ∉ s.versions) (hv : s.versions = a :: t)
    (hcap : ¬(s.versions.length < s.maxVersions)) :
    (set_current_version s v so).versions = t ++ [v] ∧
    (set_current_version s v so).dirs = aerase s.dirs a := by
  unfold set_current_version
  have hlen : s.maxVersions < t.length + 1 + 1 := by
    rw [hv] at hcap
    simp only [List.length_cons] at hcap
    omega
  have h' : ¬(v = a ∨ v ∈ t) := by
    rw [hv] at h
    simpa using h
  cases so <;> simp [h', hv, hlen, cleanup_old_version]

theorem set_current_persisted_false (s : VMState) (v : String) :
    (set_current_version s v false).persisted = s.persisted := by
  unfold set_current_version
  dsimp only
  repeat' split
  all_goals first | rfl | simp_all

/-! ## `get_current_version` / `get_previous_version` lemmas -/

theorem get_current_concat (s : VMState) (l : List String) (v : String)
    (hs : s.versions = l ++ [v]) : get_current_version s = some v := by
  unfold get_current_version
  rw [hs, List.getLast?_concat]

theorem get_previous_concat (s : VMState) (l : List String) (v : String)
    (hs : s.versions = l ++ [v]) (hl : l ≠ []) :
    get_previous_version s = l.getLast? := by
  unfold get_previous_version
  have hpos : 0 < l.length := List.length_pos.mpr hl
  rw [hs]
  have hlen : (l ++ [v]).length = l.length + 1 := by simp
  rw [hlen, if_pos (by omega)]
  have hidx : l.length + 1 - 2 = l.length - 1 := by omega
  rw [hidx, List.get?_eq_getElem?, List.getElem?_append, if_pos (by omega),
    ← List.getLast?_eq_getElem?]

theorem getLast?_tail (l : List String) (h : 2 ≤ l.length) :
    l.tail.getLast? = l.getLast? := by
  match l, h with
  | a :: b :: t, _ => rw [List.tail_cons, List.getLast?_cons_cons]

theorem set_current_evict_nil (s : VMState) (v : String) (so : Bool)
    (h : v ∉ s.versions) (hv : s.versions = [])
    (hcap : ¬(s.versions.length < s.maxVersions)) :
    (set_current_version s v so).versions = [] := by
  unfold set_current_version
  have hmax0 : s.maxVersions = 0 := by
    rw [hv] at hcap
    simpa using hcap
  cases so <;> simp [h, hv, hmax0]

theorem set_current_length_le (s : VMState) (v : String) (so : Bool)
    (h : s.versions.length ≤ s.maxVersions) :
    (set_current_version s v so).versions.length ≤ s.maxVersions := by
  by_cases hm : v ∈ s.versions
  · rw [(set_current_of_mem s v so hm).1]
    exact h
  · by_cases hcap : s.versions.length < s.maxVersions
    · rw [(set_current_no_evict s v so hm hcap).1]
      simp only [List.length_append, List.length_singleton, List.length_cons,
        List.length_nil]
      omega
    · cases hl : s.versions with
      | nil =>
        rw [set_current_evict_nil s v so hm hl hcap]
        simp
      | cons a t =>
        rw [(set_current_evict s v a t so hm hl hcap).1]
        rw [hl] at h
        simp only [List.length_append, List.length_singleton, List.length_cons,
          List.length_nil] at h ⊢
        omega

theorem runCalls_length_le (calls : List String) (s : VMState)
    (h : s.versions.length ≤ s.maxVersions) :
    (runCalls s calls).versions.length ≤ s.maxVersions := by
  induction calls generalizing s with
  | nil => exact h
  | cons c rest ih =>
    have h' : (set_current_version s c true).versions.length ≤
        (set_current_version s c true).maxVersions := by
      rw [set_current_maxVersions]
      exact set_current_length_le s c true h
    have hres := ih (set_current_version s c true) h'
    rw [set_current_maxVersions] at hres
    exact hres

theorem set_current_removed_dir (s : VMState) (v old : String) (so : Bool)
    (h1 : old ∈ s.versions) (h2 : old ∉ (set_current_version s v so).versions) :
    alookup (set_current_version s v so).dirs old = none := by
  by_cases hm : v ∈ s.versions
  · exact absurd h1 ((set_current_of_mem s v so hm).1 ▸ h2)
  · by_cases hcap : s.versions.length < s.maxVersions
    · exact absurd (List.mem_append_left [v] h1)
        ((set_current_no_evict s v so hm hcap).1 ▸ h2)
    · cases hl : s.versions with
      | nil =>
        rw [hl] at h1
        exact absurd h1 (List.not_mem_nil old)
      | cons a t =>
        have hset := set_current_evict s v a t so hm hl hcap
        rw [hset.1] at h2
        have hol : old = a := by
          rw [hl] at h1
          rcases List.mem_cons.mp h1 with h | h
          · exact h
          · exact absurd (List.mem_append_left [v] h) h2
        rw [hset.2, hol]
        exact alookup_aerase_self s.dirs a

/-! ## Claim theorems: VersionStore -/

/-- C3: starting from an empty history, the history length never exceeds
`max_versions` after any sequence of `set_current_version` calls; and any
identifier removed from the history by a `set_current_version` call (the
evicted oldest entry) has no version directory on disk afterwards. -/
theorem history_cap_and_eviction (maxV : Nat) (calls : List String)
    (s : VMState) (v old : String)
    (h1 : old ∈ s.versions) (h2 : old ∉ (set_current_version s v true).versions) :
    (runCalls (vm0 maxV) calls).versions.length ≤ maxV ∧
    alookup (set_current_version s v true).dirs old = none :=
  ⟨runCalls_length_le calls (vm0 maxV) (by simp [vm0]),
   set_current_removed_dir s v old true h1 h2⟩

/-- Witness for C3 at `max_versions = 2`, calls `x, y, z`, and an eviction
of `"a"` from the history `["a", "b"]` by setting `"c"`. -/
theorem history_cap_and_eviction_witness :
    (runCalls (vm0 2) ["x", "y", "z"]).versions.length ≤ 2 ∧
    alookup (set_current_version ⟨["a", "b"], 2, [("a", []), ("b", [])], []⟩
      "c" true).dirs "a" = none :=
  ⟨(history_cap_and_eviction 2 ["x", "y", "z"]
      ⟨["a", "b"], 2, [("a", []), ("b", [])], []⟩ "c" "a"
      (by decide) (by decide)).1,
   (history_cap_and_eviction 2 ["x", "y", "z"]
      ⟨["a", "b"], 2, [("a", []), ("b", [])], []⟩ "c" "a"
      (by decide) (by decide)).2⟩

/-- C2 counterexample: from an empty history, the calls
`set_current_version "a"`, `"b"`, `"a"` leave `get_current_version` at
`"b"`, not at the most recently set identifier `"a"`: re-setting an
identifier already present in history does not reorder it. -/
theorem set_current_repeat_cex :
    get_current_version (runCalls (vm0 5) ["a", "b", "a"]) = some "b" ∧
    some "b" ≠ some ("a" : String) := by
  constructor
  · decide
  · decide

/-- C2 (amended): when the identifier being set is NOT already in history
(and the retention cap is at least 2, so the append is not immediately
undone by an eviction of interest), `get_current_version` returns it and
`get_previous_version` returns the identifier that was current before;
when the identifier IS already in history — as in the rollback path —
the call leaves the history unchanged. -/
theorem set_current_tracks_history (s : VMState) (v w : String) (so : Bool)
    (hv : v ∉ s.versions) (hmax : 2 ≤ s.maxVersions) (hw : w ∈ s.versions) :
    get_current_version (set_current_version s v so) = some v ∧
    get_previous_version (set_current_version s v so) = get_current_version s ∧
    (set_current_version s w so).versions = s.versions := by
  refine ⟨?_, ?_, (set_current_of_mem s w so hw).1⟩
  · by_cases hcap : s.versions.length < s.maxVersions
    · exact get_current_concat _ s.versions v (set_current_no_evict s v so hv hcap).1
    · cases hl : s.versions with
      | nil =>
        exfalso
        rw [hl] at hcap
        simp only [List.length_nil] at hcap
        omega
      | cons a t =>
        exact get_current_concat _ t v (set_current_evict s v a t so hv hl hcap).1
  · by_cases hcap : s.versions.length < s.maxVersions
    · have hset := (set_current_no_evict s v so hv hcap).1
      cases hl : s.versions with
      | nil =>
        rw [hl] at hset
        unfold get_previous_version get_current_version
        rw [hset, hl]
        simp
      | cons a t =>
        rw [get_previous_concat _ s.versions v hset (by rw [hl]; simp)]
        rfl
    · have hlen2 : 2 ≤ s.versions.length := le_trans hmax (not_lt.mp hcap)
      cases hl : s.versions with
      | nil =>
        exfalso
        rw [hl] at hlen2
        simp at hlen2
      | cons a t =>
        have hset := (set_current_evict s v a t so hv hl hcap).1
        have ht : t ≠ [] := by
          intro hh
          rw [hl, hh] at hlen2
          simp at hlen2
        rw [get_previous_concat _ t v hset ht]
        unfold get_current_version
        rw [hl]
        exact getLast?_tail (a :: t) (by rw [← hl]; exact hlen2)

/-- Witness for C2 (amended) at history `["a", "b"]`, cap 2, setting the
new identifier `"c"` and re-setting the already-present `"a"`. -/
theorem set_current_tracks_history_witness :
    get_current_version
        (set_current_version ⟨["a", "b"], 2, [], []⟩ "c" true) = some "c" ∧
    get_previous_version
        (set_current_version ⟨["a", "b"], 2, [], []⟩ "c" true) =
      get_current_version ⟨["a", "b"], 2, [], []⟩ ∧
    (set_current_version ⟨["a", "b"], 2, [], []⟩ "a" true).versions =
      (⟨["a", "b"], 2, [], []⟩ : VMState).versions :=
  set_current_tracks_history ⟨["a", "b"], 2, [], []⟩ "c" "a" true
    (by decide) (by decide) (by decide)

/-- C7: when persisting `versions.json` fails, the in-memory append is
not rolled back — `get_current_version` returns the identifier just set
while the persisted list is unchanged. (Cap at least 1 and a fresh
identifier, so that the append actually happens and survives.) -/
theorem set_current_save_failure_keeps_append (s : VMState) (v : String)
    (hv : v ∉ s.versions) (hmax : 0 < s.maxVersions) :
    get_current_version (set_current_version s v false) = some v ∧
    (set_current_version s v false).persisted = s.persisted := by
  refine ⟨?_, set_current_persisted_false s v⟩
  by_cases hcap : s.versions.length < s.maxVersions
  · exact get_current_concat _ s.versions v (set_current_no_evict s v false hv hcap).1
  · cases hl : s.versions with
    | nil =>
      exfalso
      rw [hl] at hcap
      simp only [List.length_nil] at hcap
      omega
    | cons a t =>
      exact get_current_concat _ t v (set_current_evict s v a t false hv hl hcap).1

/-- Witness for C7: a failed save after appending `"a"` to the empty
history still leaves `"a"` current, with nothing persisted. -/
theorem set_current_save_failure_keeps_append_witness :
    get_current_version (set_current_version (vm0 5) "a" false) = some "a" ∧
    (set_current_version (vm0 5) "a" false).persisted = (vm0 5).persisted :=
  set_current_save_failure_keeps_append (vm0 5) "a" (by decide) (by decide)

/-- State posited by the C8 example: history already holds three
identifiers while the cap is 2 (as read back from a `versions.json`
written under a larger cap). -/
def historyThree : VMState :=
  { versions := ["v1.0.0", "v1.1.0", "v1.2.0"],
    maxVersions := 2,
    dirs := [("v1.0.0", []), ("v1.1.0", []), ("v1.2.0", [])],
    persisted := ["v1.0.0", "v1.1.0", "v1.2.0"] }

/-- C8 counterexample: from history `["v1.0.0","v1.1.0","v1.2.0"]` with
`max_versions = 2`, `set_current_version "v1.3.0"` does NOT shrink the
history to the claimed `["v1.2.0","v1.3.0"]`, and `"v1.1.0"`'s version
directory is NOT removed. -/
theorem evict_single_oldest_cex :
    (set_current_version historyThree "v1.3.0" true).versions ≠
      ["v1.2.0", "v1.3.0"] ∧
    alookup (set_current_version historyThree "v1.3.0" true).dirs "v1.1.0" ≠
      none := by
  constructor
  · decide
  · decide

/-- C8 (amended): a single `set_current_version` call evicts at most the
one oldest entry: the history becomes `["v1.1.0","v1.2.0","v1.3.0"]`
(still above the cap), only `"v1.0.0"`'s directory is deleted, and the
`"v1.1.0"` and `"v1.2.0"` directories survive. -/
theorem evict_single_oldest :
    (set_current_version historyThree "v1.3.0" true).versions =
      ["v1.1.0", "v1.2.0", "v1.3.0"] ∧
    alookup (set_current_version historyThree "v1.3.0" true).dirs "v1.0.0" =
      none ∧
    alookup (set_current_version historyThree "v1.3.0" true).dirs "v1.1.0" =
      some [] ∧
    alookup (set_current_version historyThree "v1.3.0" true).dirs "v1.2.0" =
      some [] := by
  refine ⟨by decide, by decide, by decide, by decide⟩

/-! ## Claim theorems: UpdateController -/

/-- C6: `check_for_update` compares the remote identifier (release tag,
else short commit sha) to the stored current version by strict string
inequality only: it returns nothing exactly when there is no remote
identifier or it equals the current version; any returned result carries
the (differing) remote identifier; and a cycle in which the check comes
back empty leaves the whole state untouched (no history mutation). -/
theorem check_for_update_strict_inequality (cur : Option String)
    (rel : Option Release) (com : Option Commit) :
    (check_for_update cur rel com = none ↔
      remote_ident rel com = none ∨ remote_ident rel com = cur) ∧
    (∀ info, check_for_update cur rel com = some info →
      remote_ident rel com = some info.version ∧ cur ≠ some info.version) ∧
    (∀ (s : OTAState) (dl : Option Dir) (startOk rbStartOk : Bool)
        (trace : List Obs),
      s.current_version = cur → check_for_update cur rel com = none →
      run_cycle s rel com dl startOk rbStartOk trace = s) := by
  refine ⟨?_, ?_, ?_⟩
  · cases rel with
    | some r =>
      by_cases h : cur = some r.tag_name <;>
        simp [check_for_update, remote_ident, h, eq_comm]
    | none =>
      cases com with
      | none => simp [check_for_update, remote_ident]
      | some c =>
        by_cases h : cur = some (strTake c.sha 7) <;>
          simp [check_for_update, remote_ident, h, eq_comm]
  · intro info hinfo
    cases rel with
    | some r =>
      simp only [check_for_update] at hinfo
      by_cases h : cur = some r.tag_name
      · rw [if_neg (not_not_intro h)] at hinfo
        exact absurd hinfo (by simp)
      · rw [if_pos h] at hinfo
        have hi : info = ⟨r.tag_name, .release r.id⟩ := (Option.some.inj hinfo).symm
        subst hi
        exact ⟨rfl, h⟩
    | none =>
      cases com with
      | none => simp [check_for_update] at hinfo
      | some c =>
        simp only [check_for_update] at hinfo
        by_cases h : cur = some (strTake c.sha 7)
        · rw [if_neg (not_not_intro h)] at hinfo
          exact absurd hinfo (by simp)
        · rw [if_pos h] at hinfo
          have hi : info = ⟨strTake c.sha 7, .commit c.sha⟩ := (Option.some.inj hinfo).symm
          subst hi
          exact ⟨rfl, h⟩
  · intro s dl startOk rbStartOk trace hcur hnone
    simp only [run_cycle, hcur, hnone]

/-- Witness for C6 on the spec's example: current `"v1.0.0"`, remote
release tag `"v1.0.1"` — the result carries `"v1.0.1"`, which differs
from the current version. -/
theorem check_for_update_strict_inequality_witness :
    remote_ident (some ⟨"v1.0.1", 7⟩) none = some "v1.0.1" ∧
    some "v1.0.0" ≠ some "v1.0.1" :=
  (check_for_update_strict_inequality (some "v1.0.0")
    (some ⟨"v1.0.1", 7⟩) none).2.1 ⟨"v1.0.1", .release 7⟩ (by decide)

/-- C10: with no tracked process handle (`self.app_process` is `None`,
e.g. after a failed `start_application`, which returns `False` and
changes nothing), `verify_update` skips the process-exit check entirely:
its result is exactly "some poll observed a positive log marker",
independent of whether any process is alive. -/
theorem verify_update_no_handle (t : List Obs) (s : OTAState) :
    verify_update false t = t.any obsMarker ∧
    (start_application s false).2 = false ∧
    (start_application s false).1 = s := by
  refine ⟨?_, rfl, rfl⟩
  induction t with
  | nil => rfl
  | cons o rest ih =>
    by_cases h : obsMarker o <;> simp [verify_update, h, ih]

/-- An `app.log` content carrying both positive liveness markers. -/
def okLog : String :=
  "Successfully connected to Azure SQL Database Data stored: 1"

/-- C5 counterexample: the process exits at the second poll (well before
the timeout), but the first poll already sees a positive marker while
the process is alive, so `verify_update` returns true — it does not
return false for every exit occurring before the timeout. -/
theorem verify_update_exit_cex :
    ([⟨false, some okLog⟩, ⟨true, none⟩] : List Obs).any (fun o => o.exited) = true ∧
    verify_update true [⟨false, some okLog⟩, ⟨true, none⟩] = true := by
  constructor
  · decide
  · decide

/-- C5 (amended): the process-exit check takes precedence at every poll:
if the process has exited by some poll and no earlier poll's log carried
a positive marker, `verify_update` returns false regardless of markers
at or after that poll. (A marker observed while the process is still
alive returns true even if the process exits later, before timeout.) -/
theorem verify_update_exit_precedence (t1 t2 : List Obs) (o : Obs)
    (h1 : ∀ x ∈ t1, obsMarker x = false) (h2 : o.exited = true) :
    verify_update true (t1 ++ o :: t2) = false := by
  induction t1 with
  | nil => simp [verify_update, h2]
  | cons x t1 ih =>
    have hx : obsMarker x = false := h1 x (List.mem_cons_self x t1)
    have h1' : ∀ y ∈ t1, obsMarker y = false :=
      fun y hy => h1 y (List.mem_cons_of_mem x hy)
    by_cases he : x.exited
    · simp [verify_update, he]
    · simp [verify_update, he, hx, ih h1']

/-- Witness for C5 (amended): a single poll at which the process has
exited, its log even carrying a marker, yields false. -/
theorem verify_update_exit_precedence_witness :
    verify_update true ([] ++ (⟨true, some okLog⟩ : Obs) :: []) = false :=
  verify_update_exit_precedence [] [] ⟨true, some okLog⟩ (by simp) rfl

/-! ## Claim theorems: ProcessSupervisor -/

/-- C9 counterexample: with no in-memory handle but a managed process
still running (the supervisor restarted independently),
`stop_application` returns with the process still running — there is no
fallback that locates it by command name. -/
theorem stop_application_no_handle_cex :
    (stop_application ⟨false, true⟩).running = true := by decide

/-- C9 (amended): `stop_application` acts only through the in-memory
handle: with no handle the call is a complete no-op (no termination by
command name is attempted, so an untracked managed process survives);
with a handle it leaves no managed process running and clears the
handle. -/
theorem stop_application_spec (p : ProcState) :
    (p.tracked = false → stop_application p = p) ∧
    (p.tracked = true →
      (stop_application p).running = false ∧
      (stop_application p).tracked = false) := by
  constructor
  · intro h
    simp [stop_application, h]
  · intro h
    simp [stop_application, h]

/-- Witness for C9 (amended): an untracked running process is untouched;
a tracked one ends up not running. -/
theorem stop_application_spec_witness :
    stop_application ⟨false, true⟩ = ⟨false, true⟩ ∧
    (stop_application ⟨true, true⟩).running = false :=
  ⟨(stop_application_spec ⟨false, true⟩).1 rfl,
   ((stop_application_spec ⟨true, true⟩).2 rfl).1⟩

/-! ## Claim theorems: rollback with no previous version (C4) -/

/-- A state whose history holds a single version: no previous exists. -/
def sNoPrev : OTAState :=
  ⟨⟨["v2"], 5, [("v2", [])], ["v2"]⟩, [], some "v2", ⟨true, true⟩⟩

/-- C4 counterexample: when no previous version exists, the failed
rollback does NOT leave the new version's process running: rollback
already stopped the application before discovering that rollback is
impossible. -/
theorem rollback_no_previous_cex :
    sNoPrev.proc.running = true ∧
    (rollback sNoPrev true).2 = false ∧
    (rollback sNoPrev true).1.proc.running = false := by
  refine ⟨by decide, by decide, by decide⟩

/-- C4 (amended): with no previous version, rollback reports failure
with files, history and current version all unchanged; its only effect
is having stopped the tracked process (the new version's files stay in
place but its process no longer runs); and the next polling cycle still
proceeds normally — a cycle with nothing reported by the remote source
leaves the state untouched rather than crashing. -/
theorem rollback_no_previous_spec (s : OTAState) (startOk : Bool)
    (h : get_previous_version s.vm = none) :
    rollback s startOk = ({ s with proc := stop_application s.proc }, false) ∧
    (s.proc.tracked = true → (rollback s startOk).1.proc.running = false) ∧
    (∀ so2 rbo2 : Bool,
      run_cycle (rollback s startOk).1 none none none so2 rbo2 [] =
        (rollback s startOk).1) := by
  have hr : rollback s startOk = ({ s with proc := stop_application s.proc }, false) := by
    unfold rollback
    dsimp only
    rw [h]
  refine ⟨hr, ?_, ?_⟩
  · intro ht
    rw [hr]
    simp [stop_application, ht]
  · intro so2 rbo2
    rfl

/-- Witness for C4 (amended) at the single-version state. -/
theorem rollback_no_previous_spec_witness :
    rollback sNoPrev true =
      ({ sNoPrev with proc := stop_application sNoPrev.proc }, false) ∧
    (rollback sNoPrev true).1.proc.running = false :=
  ⟨(rollback_no_previous_spec sNoPrev true (by decide)).1,
   (rollback_no_previous_spec sNoPrev true (by decide)).2.1 rfl⟩

/-! ## Claim theorems: backup / update / rollback round trip (C1) -/

theorem hasSuffix_py_not_txt (f : String) (h : hasSuffix f ".py" = true) :
    hasSuffix f ".txt" = false := by
  unfold hasSuffix at h ⊢
  have h1 : (".py" : String).data.reverse = ['y', 'p', '.'] := rfl
  have h2 : (".txt" : String).data.reverse = ['t', 'x', 't', '.'] := rfl
  rw [h1] at h
  rw [h2]
  cases hr : f.data.reverse with
  | nil =>
    rw [hr] at h
    simp [leadsWith] at h
  | cons ch rest =>
    rw [hr] at h
    simp only [leadsWith, Bool.and_eq_true, beq_iff_eq] at h
    obtain ⟨hc, -⟩ := h
    subst hc
    have ht : (('t' : Char) == 'y') = false := by decide
    simp [leadsWith, ht]

/-- The backup directory contents produced by `backup_current_version`:
the previous on-disk contents `D0` overwritten by the snapshot's `*.py`
files and then by its `*.txt` files. -/
def backupDir (A D0 : Dir) : Dir :=
  copyFiles A (copyFiles A D0 (fun g => hasSuffix g ".py"))
    (fun g => hasSuffix g ".txt")

theorem backup_dirs (vm : VMState) (A : Dir) (old : String)
    (hcur : get_current_version vm = some old) :
    (backup_current_version vm A).1 =
      { vm with dirs :=
          awrite vm.dirs old (backupDir A ((alookup vm.dirs old).getD [])) } := by
  unfold backup_current_version backupDir
  rw [hcur]

theorem backup_dir_restores (A D0 : Dir) (f c : String)
    (hnodup : (A.map Prod.fst).Nodup)
    (hf : hasSuffix f ".py" = true)
    (hc : alookup A f = some c) :
    mlast (backupDir A D0) (fun g => hasSuffix g ".py") f = some c := by
  unfold backupDir
  rw [copyFiles_mlast]
  rw [mlast_of_pred_false A _ f (by simpa using hasSuffix_py_not_txt f hf)]
  rw [copyFiles_mlast]
  rw [alookup_mlast_of_nodup A _ f c hnodup (by simpa using hf) hc]
  simp [hf]

theorem rollback_found (s : OTAState) (startOk : Bool) (prev : String) (pdir : Dir)
    (hprev : get_previous_version s.vm = some prev)
    (hdir : alookup s.vm.dirs prev = some pdir) :
    rollback s startOk =
      ((start_application
          { s with proc := stop_application s.proc,
                   app_dir := copyFiles pdir s.app_dir (fun g => hasSuffix g ".py"),
                   vm := set_current_version s.vm prev true,
                   current_version := some prev } startOk).1, true) := by
  unfold rollback
  dsimp only
  simp only [hprev, hdir]

theorem start_application_app_dir (s : OTAState) (ok : Bool) :
    (start_application s ok).1.app_dir = s.app_dir := by
  cases ok <;> rfl

/-- C1 (amended): after `backup_current_version(app_dir)` of snapshot
`A`, a `set_current_version(new)` commit (the staged files having been
copied into the live directory, modelled as an arbitrary post-update
directory `Anew`), `rollback()` succeeds and restores every `*.py` file
of the snapshot byte-identical to its snapshot content. (`*.txt` files
and files the update added are NOT restored — see the counterexample —
so the full byte-identical round trip of the original claim fails.)
Side conditions: the snapshot has no duplicate file names, a current
version exists, the new identifier is fresh, and the history is below
the cap, so the backup directory survives the commit. -/
theorem rollback_restores_py_files (vm : VMState) (A Anew : Dir)
    (newv old f c : String) (proc : ProcState) (startOk : Bool)
    (hnodup : (A.map Prod.fst).Nodup)
    (hcur : get_current_version vm = some old)
    (hnew : newv ∉ vm.versions)
    (hcap : vm.versions.length < vm.maxVersions)
    (hf : hasSuffix f ".py" = true)
    (hc : alookup A f = some c) :
    (rollback ⟨set_current_version (backup_current_version vm A).1 newv true,
        Anew, some newv, proc⟩ startOk).2 = true ∧
    alookup (rollback ⟨set_current_version (backup_current_version vm A).1 newv true,
        Anew, some newv, proc⟩ startOk).1.app_dir f = some c := by
  rw [backup_dirs vm A old hcur]
  obtain ⟨hv2, hd2⟩ :=
    set_current_no_evict
      { vm with dirs :=
          awrite vm.dirs old (backupDir A ((alookup vm.dirs old).getD [])) }
      newv true hnew hcap
  have hne : vm.versions ≠ [] := by
    intro hh
    rw [get_current_version, hh] at hcur
    simp at hcur
  have hprev :
      get_previous_version
        (set_current_version
          { vm with dirs :=
              awrite vm.dirs old (backupDir A ((alookup vm.dirs old).getD [])) }
          newv true) = some old := by
    rw [get_previous_concat _ vm.versions newv hv2 hne]
    exact hcur
  have hdirs :
      alookup
        (set_current_version
          { vm with dirs :=
              awrite vm.dirs old (backupDir A ((alookup vm.dirs old).getD [])) }
          newv true).dirs old =
        some (backupDir A ((alookup vm.dirs old).getD [])) := by
    rw [hd2]
    exact alookup_awrite_self vm.dirs old _
  rw [rollback_found _ startOk old (backupDir A ((alookup vm.dirs old).getD []))
    hprev hdirs]
  constructor
  · rfl
  · rw [start_application_app_dir]
    dsimp only
    rw [copyFiles_alookup]
    rw [backup_dir_restores A ((alookup vm.dirs old).getD []) f c hnodup hf hc]

/-- Concrete pre-update snapshot for the C1 round-trip scenario. -/
def cexSnapshot : Dir := [("app.py", "v1code"), ("conf.txt", "c1")]

/-- Concrete staged files of the new version: both files changed, plus
one file the snapshot did not have. -/
def cexNewDir : Dir := [("app.py", "v2code"), ("conf.txt", "c2"), ("extra.py", "x")]

/-- Version-manager state with `"old"` current before the update. -/
def cexVM : VMState := ⟨["old"], 5, [], ["old"]⟩

/-- The updater state right after backup, update-copy and commit of
`"new"`, as produced by `apply_update`'s steps. -/
def cexUpdated : OTAState :=
  ⟨set_current_version (backup_current_version cexVM cexSnapshot).1 "new" true,
   copyFiles cexNewDir cexSnapshot
     (fun g => hasSuffix g ".py" || hasSuffix g ".txt"),
   some "new", ⟨true, true⟩⟩

/-- C1 counterexample: after backup, update-copy and rollback, the
`.txt` file still has the updated content (`"c2"`, not the snapshot's
`"c1"`), and a file absent from the snapshot (`extra.py`) survives —
the restored directory is not byte-identical to the snapshot. -/
theorem rollback_roundtrip_cex :
    alookup cexSnapshot "conf.txt" = some "c1" ∧
    alookup (rollback cexUpdated true).1.app_dir "conf.txt" = some "c2" ∧
    alookup cexSnapshot "extra.py" = none ∧
    alookup (rollback cexUpdated true).1.app_dir "extra.py" = some "x" := by
  refine ⟨by decide, by decide, by decide, by decide⟩

/-- Witness for C1 (amended): in the same concrete scenario the `.py`
file is restored byte-identical to the snapshot. -/
theorem rollback_restores_py_files_witness :
    (rollback ⟨set_current_version
        (backup_current_version cexVM cexSnapshot).1 "new" true,
      copyFiles cexNewDir cexSnapshot
        (fun g => hasSuffix g ".py" || hasSuffix g ".txt"),
      some "new", ⟨true, true⟩⟩ true).2 = true ∧
    alookup (rollback ⟨set_current_version
        (backup_current_version cexVM cexSnapshot).1 "new" true,
      copyFiles cexNewDir cexSnapshot
        (fun g => hasSuffix g ".py" || hasSuffix g ".txt"),
      some "new", ⟨true, true⟩⟩ true).1.app_dir "app.py" = some "v1code" :=
  rollback_restores_py_files cexVM cexSnapshot
    (copyFiles cexNewDir cexSnapshot
      (fun g => hasSuffix g ".py" || hasSuffix g ".txt"))
    "new" "old" "app.py" "v1code" ⟨true, true⟩ true
    (by decide) (by decide) (by decide) (by decide) (by decide) (by decide)
